import Mathlib

/-!
Verification of the CDC-Camper-Bot core: session-state tracking, the slot
diff engine, the booking-page retry guard, login, and the account
orchestrator.  Python dictionaries (insertion ordered, unique keys) are
embedded as association lists; machine-level datetimes are embedded as
year/month/day/hour/minute tuples; fallible Python code (code that can
raise) is embedded as Option-returning functions, with none standing for
a raised exception.
-/

namespace CDC

/-- A slot, as iterated by the diff engine: (date string, time-range string).
Mirrors the pairs produced by the comprehension in
handler.get_earliest_time_slots. -/
abbrev Slot := String × String

/-- A Python dict from date string to list of time-range strings
(insertion-ordered association list; a real dict additionally has
no duplicate keys, stated as a Nodup hypothesis where it matters). -/
abbrev SlotCollection := List (String × List String)

/-! ### The datetime parser: model of convert_to_datetime (website_handler.py)

convert_to_datetime calls datetime.strptime with the format
"%d/%b/%Y | %H:%M" on the string built from the date and the first
space-separated token of the time string, raising ValueError when the
string does not match.  The CPython strptime patterns used here are
%d = one or two digits valued 1..31, %b = a case-insensitive English
month abbreviation, %Y = exactly four digits, %H = one or two digits
valued 0..23, %M = one or two digits valued 0..59, and the datetime
constructor additionally requires year at least 1 and the day to exist
in the given month. -/

/-- Split a character list on every occurrence of a separator character,
as Python str.split(sep) (empty pieces are kept). -/
def splitChar (sep : Char) : List Char → List (List Char)
  | [] => [[]]
  | c :: cs =>
    match splitChar sep cs with
    | [] => [[c]]
    | h :: t => if c = sep then [] :: h :: t else (c :: h) :: t

/-- Numeric value of a digit string (most significant first). -/
def charsToNat (cs : List Char) : Nat :=
  cs.foldl (fun n c => n * 10 + (c.toNat - (48 : Nat))) 0

/-- Parse a run of digits whose length lies between minLen and maxLen,
as the strptime numeric field patterns do. -/
def parseNumField (cs : List Char) (minLen maxLen : Nat) : Option Nat :=
  if cs.all Char.isDigit ∧ minLen ≤ cs.length ∧ cs.length ≤ maxLen then
    some (charsToNat cs)
  else none

/-- ASCII lowercasing of one character (strptime matches month names
case-insensitively). -/
def lowerChar (c : Char) : Char :=
  if 65 ≤ c.toNat ∧ c.toNat ≤ 90 then Char.ofNat (c.toNat + 32) else c

/-- Month number from an English abbreviated month name, any case. -/
def monthFromChars (cs : List Char) : Option Nat :=
  let l := cs.map lowerChar
  if l = "jan".data then some 1
  else if l = "feb".data then some 2
  else if l = "mar".data then some 3
  else if l = "apr".data then some 4
  else if l = "may".data then some 5
  else if l = "jun".data then some 6
  else if l = "jul".data then some 7
  else if l = "aug".data then some 8
  else if l = "sep".data then some 9
  else if l = "oct".data then some 10
  else if l = "nov".data then some 11
  else if l = "dec".data then some 12
  else none

/-- Gregorian leap year, as datetime uses. -/
def isLeapYear (y : Nat) : Bool :=
  y % 4 = 0 ∧ (y % 100 ≠ 0 ∨ y % 400 = 0)

/-- Number of days in a month, as the datetime constructor validates. -/
def daysInMonth (y m : Nat) : Nat :=
  if m = 2 then (if isLeapYear y then 29 else 28)
  else if m = 4 ∨ m = 6 ∨ m = 9 ∨ m = 11 then 30
  else 31

/-- Parse a date in the strptime format %d/%b/%Y, validated as the
datetime constructor does.  Returns (year, month, day). -/
def parseDate (cs : List Char) : Option (Nat × Nat × Nat) :=
  match splitChar (Char.ofNat 47) cs with
  | [ds, bs, ys] =>
    match parseNumField ds 1 2, monthFromChars bs, parseNumField ys 4 4 with
    | some d, some m, some y =>
      if 1 ≤ y ∧ 1 ≤ d ∧ d ≤ daysInMonth y m then some (y, m, d) else none
    | _, _, _ => none
  | _ => none

/-- Parse a time in the strptime format %H:%M.  Returns (hour, minute). -/
def parseTime (cs : List Char) : Option (Nat × Nat) :=
  match splitChar (Char.ofNat 58) cs with
  | [hs, ms] =>
    match parseNumField hs 1 2, parseNumField ms 1 2 with
    | some h, some m => if h ≤ 23 ∧ m ≤ 59 then some (h, m) else none
    | _, _ => none
  | _ => none

/-- A parsed datetime.datetime value (year, month, day, hour, minute;
the code never parses seconds). -/
structure PyDateTime where
  year : Nat
  month : Nat
  day : Nat
  hour : Nat
  minute : Nat
  deriving Repr, DecidableEq

/-- Encoding of a PyDateTime as a single natural number.  Because the
parser bounds month, day, hour and minute below 100, the order of the
codes is exactly Python's datetime order (lexicographic on the five
fields); see code_le_iff_lex. -/
def PyDateTime.code (t : PyDateTime) : Nat :=
  (((t.year * 100 + t.month) * 100 + t.day) * 100 + t.hour) * 100 + t.minute

/-- Model of convert_to_datetime(date_str, time_str) from
website_handler.py: on a truthy (nonempty) time string, parse the date
together with the first space-separated token of the time string; on an
empty/None time string, parse the date alone (midnight).  none models a
raised ValueError. -/
def convert_to_datetime (date_str : String) (time_str : String) : Option PyDateTime :=
  if time_str = "" then
    (parseDate date_str.data).map (fun v => ⟨v.1, v.2.1, v.2.2, 0, 0⟩)
  else
    let t0 := time_str.data.takeWhile (fun c => ¬ (c = ' '))
    match parseDate date_str.data, parseTime t0 with
    | some v, some hm => some ⟨v.1, v.2.1, v.2.2, hm.1, hm.2⟩
    | _, _ => none

/-- Comparison key of a slot: its parsed datetime code.  Slots are only
ever compared after every slot in play has been checked to parse, so the
default 0 is never reached on the paths where this key is used. -/
def slotKey (e : Slot) : Nat :=
  ((convert_to_datetime e.1 e.2).map PyDateTime.code).getD 0

/-- Whether a slot parses (the comparison in Python raises otherwise). -/
def slotParses (e : Slot) : Bool :=
  (convert_to_datetime e.1 e.2).isSome

/-! ### The diff engine (handler.get_earliest_time_slots and
handler.check_if_same_sessions) -/

/-- The flattening comprehension of get_earliest_time_slots:
[(date_str, time_slot) for date_str, time_slots in sessions_data.items()
 for time_slot in time_slots]. -/
def flattenSessions : SlotCollection → List Slot
  | [] => []
  | (d, ts) :: m => ts.map (fun t => (d, t)) ++ flattenSessions m

/-- Ordering used by the Python sort (comparison of the parsed
datetimes). -/
def slotLe (a b : Slot) : Prop := slotKey a ≤ slotKey b

instance : DecidableRel slotLe := fun a b => Nat.decLe _ _

/-- Python list.sort is a stable sort; insertion sort computes the same
result as any stable sort for this total preorder. -/
def pySort (l : List Slot) : List Slot := l.insertionSort slotLe

/-- One step of the result-building loop of get_earliest_time_slots:
if selected_date_str not in return_sessions_data, start a new entry
(at the end, as dict insertion does); else append the time slot to the
existing entry. -/
def upsert (acc : SlotCollection) (e : Slot) : SlotCollection :=
  if acc.any (fun kv => kv.1 = e.1) then
    acc.map (fun kv => if kv.1 = e.1 then (kv.1, kv.2 ++ [e.2]) else kv)
  else acc ++ [(e.1, [e.2])]

/-- The result-building loop of get_earliest_time_slots, over the
selected slots in order. -/
def rebuild (l : List Slot) : SlotCollection := l.foldl upsert []

/-- Model of handler.get_earliest_time_slots(sessions_data, length,
field_type).  The Python sorts the flattened slots with the raising key
convert_to_datetime and then takes the indices
range(0, min(length * step, len), step) with step = 1 (the SIMULATOR
stride was removed from this code).  none models the ValueError raised
by the sort when any slot fails to parse; on the success path the
comparison key equals slotKey on every slot in play. -/
def get_earliest_time_slots (sessions_data : SlotCollection) (length : Nat)
    ( field_type : String) : Option SlotCollection :=
  let flat := flattenSessions sessions_data
  let step := 1
  if flat.all slotParses then
    let sorted_datetimes := pySort flat
    some (rebuild (sorted_datetimes.take (min (length * step) sorted_datetimes.length)))
  else none

/-- Python set(a) == set(b) for lists of strings: mutual membership. -/
def pySetEq (l1 l2 : List String) : Bool :=
  l1.all (fun x => l2.contains x) && l2.all (fun x => l1.contains x)

/-- Python session1.get(date_str, []). -/
def dictGetD (m : SlotCollection) (k : String) : List String :=
  match m.find? (fun kv => kv.1 = k) with
  | some kv => kv.2
  | none => []

/-- Model of handler.check_if_same_sessions(session0, session1): True
when the two collections differ (note the inverted boolean sense), i.e.
when the key sets differ, or some date of session0 carries a different
time-slot set than the same date of session1. -/
def check_if_same_sessions (session0 session1 : SlotCollection) : Bool :=
  if ¬ (pySetEq (session0.map Prod.fst) (session1.map Prod.fst)) then true
  else if session0.any (fun kv => ¬ (pySetEq kv.2 (dictGetD session1 kv.1))) then true
  else false

/-- The spec's collection equality: identical date keys and, for every
date, identical time-range sets (order-independent). -/
def collectionsEqual (a b : SlotCollection) : Prop :=
  (∀ d, d ∈ a.map Prod.fst ↔ d ∈ b.map Prod.fst) ∧
  (∀ d t, t ∈ dictGetD a d ↔ t ∈ dictGetD b d)

/-! ### Per-category session state (abstracts/cdc_abstract.py)

CDCAbstract synthesizes, for every category in Types (the dir() order is
PRACTICAL then PT), one attribute per entry of attribute_templates, named
attribute_fieldtype, plus the per-category flags.  The dynamic attributes
are embedded as a record per category and an enumerated attribute tag
with a type-indexed setter, mirroring setattr(self, f-string of
attribute and field_type, value). -/

/-- The Types enumeration (PRACTICAL = "practical", PT = "pt"). -/
inductive FieldType where
  | practical
  | pt
  deriving DecidableEq, Repr

/-- The attribute_templates entries of cdc_abstract.py, in source order. -/
inductive Attr where
  | days_in_view
  | web_elements_in_view
  | times_in_view
  | available_sessions
  | reserved_sessions
  | booked_sessions
  | lesson_name
  | earlier_sessions
  | cached_earlier_sessions
  deriving DecidableEq, Repr

/-- The template attributes in their source order. -/
def attribute_templates : List Attr :=
  [.days_in_view, .web_elements_in_view, .times_in_view, .available_sessions,
   .reserved_sessions, .booked_sessions, .lesson_name, .earlier_sessions,
   .cached_earlier_sessions]

/-- The value type each template attribute carries (its type constructor
in attribute_templates: list, dict or str). -/
def AttrTy : Attr → Type
  | .days_in_view => List String
  | .web_elements_in_view => List (String × String)
  | .times_in_view => List String
  | .available_sessions => SlotCollection
  | .reserved_sessions => SlotCollection
  | .booked_sessions => SlotCollection
  | .lesson_name => String
  | .earlier_sessions => SlotCollection
  | .cached_earlier_sessions => SlotCollection

/-- The zero value of each template attribute (list(), dict() or str()). -/
def zeroVal : (a : Attr) → AttrTy a
  | .days_in_view => []
  | .web_elements_in_view => []
  | .times_in_view => []
  | .available_sessions => []
  | .reserved_sessions => []
  | .booked_sessions => []
  | .lesson_name => ""
  | .earlier_sessions => []
  | .cached_earlier_sessions => []

/-- The template attributes of one category. -/
structure SessionFields where
  days_in_view : List String
  web_elements_in_view : List (String × String)
  times_in_view : List String
  available_sessions : SlotCollection
  reserved_sessions : SlotCollection
  booked_sessions : SlotCollection
  lesson_name : String
  earlier_sessions : SlotCollection
  cached_earlier_sessions : SlotCollection

/-- setattr of one template attribute on one category's record. -/
def SessionFields.setAttr (f : SessionFields) : (a : Attr) → AttrTy a → SessionFields
  | .days_in_view, v => { f with days_in_view := v }
  | .web_elements_in_view, v => { f with web_elements_in_view := v }
  | .times_in_view, v => { f with times_in_view := v }
  | .available_sessions, v => { f with available_sessions := v }
  | .reserved_sessions, v => { f with reserved_sessions := v }
  | .booked_sessions, v => { f with booked_sessions := v }
  | .lesson_name, v => { f with lesson_name := v }
  | .earlier_sessions, v => { f with earlier_sessions := v }
  | .cached_earlier_sessions, v => { f with cached_earlier_sessions := v }

/-- getattr of one template attribute from one category's record. -/
def SessionFields.getAttr (f : SessionFields) : (a : Attr) → AttrTy a
  | .days_in_view => f.days_in_view
  | .web_elements_in_view => f.web_elements_in_view
  | .times_in_view => f.times_in_view
  | .available_sessions => f.available_sessions
  | .reserved_sessions => f.reserved_sessions
  | .booked_sessions => f.booked_sessions
  | .lesson_name => f.lesson_name
  | .earlier_sessions => f.earlier_sessions
  | .cached_earlier_sessions => f.cached_earlier_sessions

/-- The mutable state of CDCAbstract: the template attributes of both
categories and the per-category flags set in __init__. -/
structure CDCState where
  practical : SessionFields
  pt : SessionFields
  can_book_next_practical : Bool
  has_auto_reserved_practical : Bool
  can_book_next_pt : Bool

/-- The record of the given category. -/
def fieldsOf (ft : FieldType) (s : CDCState) : SessionFields :=
  match ft with
  | .practical => s.practical
  | .pt => s.pt

/-- The can_book_next flag of the given category. -/
def canBookNextOf (ft : FieldType) (s : CDCState) : Bool :=
  match ft with
  | .practical => s.can_book_next_practical
  | .pt => s.can_book_next_pt

/-- The has_auto_reserved flag (PRACTICAL only; PT has none, read as
false). -/
def hasAutoReservedOf (ft : FieldType) (s : CDCState) : Bool :=
  match ft with
  | .practical => s.has_auto_reserved_practical
  | .pt => false

/-- CDCAbstract.set_attribute_with_fieldtype(attribute, field_type,
value): setattr on the name suffixed with the category. -/
def set_attribute_with_fieldtype (a : Attr) (ft : FieldType) (v : AttrTy a)
    (s : CDCState) : CDCState :=
  match ft with
  | .practical => { s with practical := s.practical.setAttr a v }
  | .pt => { s with pt := s.pt.setAttr a v }

/-- CDCAbstract.get_attribute_with_fieldtype(attribute, field_type). -/
def get_attribute_with_fieldtype (a : Attr) (ft : FieldType) (s : CDCState) : AttrTy a :=
  (fieldsOf ft s).getAttr a

/-- The whitelist of attributes preserved by a reset. -/
def whitelisted_attributes : List Attr := [.cached_earlier_sessions]

/-- CDCAbstract.reset_attributes_with_fieldtype(field_type): set every
non-whitelisted template attribute of the category to its zero value,
then reset the category's flags. -/
def reset_attributes_with_fieldtype (ft : FieldType) (s : CDCState) : CDCState :=
  let s1 := attribute_templates.foldl
    (fun st a =>
      if whitelisted_attributes.contains a then st
      else set_attribute_with_fieldtype a ft (zeroVal a) st) s
  match ft with
  | .practical => { s1 with can_book_next_practical := true, has_auto_reserved_practical := false }
  | .pt => { s1 with can_book_next_pt := true }

/-- CDCAbstract.reset_attributes_for_all_fieldtypes: reset every
category, in the field_types order (PRACTICAL, then PT). -/
def reset_attributes_for_all_fieldtypes (s : CDCState) : CDCState :=
  reset_attributes_with_fieldtype .pt (reset_attributes_with_fieldtype .practical s)

/-! ### The call-depth guard (handler.check_call_depth and the retry
recursion of handler.open_practical_lessons_booking_page) -/

/-- Model of handler.check_call_depth(call_depth): above the fixed
ceiling of 4 it forces a logout-then-login (counted by the caller model
below) and returns False; otherwise True. -/
def check_call_depth (call_depth : Nat) : Bool :=
  if call_depth > 4 then false else true

/-- Run of open_practical_lessons_booking_page(field_type, call_depth)
in which the normal-captcha dismissal (the only branch that recurses)
fails `failures` consecutive times and then stops failing.  Each call
first consults check_call_depth — when that returns False a forced
logout-then-re-login has happened and the local call_depth is reset to
0 — and each failure recurses with call_depth + 1.  Returns the pair
(number of forced re-logins, number of nested calls). -/
def openPLRun : (failures : Nat) → (call_depth : Nat) → Nat × Nat
  | failures, call_depth =>
    let relogin : Nat := if check_call_depth call_depth then 0 else 1
    let depth : Nat := if check_call_depth call_depth then call_depth else 0
    match failures with
    | 0 => (relogin, 1)
    | f + 1 =>
      let rest := openPLRun f (depth + 1)
      (relogin + rest.1, 1 + rest.2)

/-! ### The account orchestrator (src/utils/account_manager.py) -/

/-- The worker-pool sizing of AccountManager.run_all_accounts: the
configured max_concurrent_accounts when it lies in (0, enabledCount],
otherwise the number of enabled accounts. -/
def effective_max_workers (max_concurrent_accounts : Int) (enabledCount : Nat) : Nat :=
  if max_concurrent_accounts ≤ 0 ∨ max_concurrent_accounts > (enabledCount : Int) then
    enabledCount
  else max_concurrent_accounts.toNat

/-- State of the worker pool: tasks not yet started and tasks currently
running. -/
structure PoolState where
  pending : Nat
  running : Nat

/-- Modelled from the spec and the documented contract of the
fixed-size thread pool used by run_all_accounts (the pool itself is
library code, not part of this repository): a pending task may start
only while fewer than maxWorkers tasks run; a running task may finish. -/
inductive PoolStep (maxWorkers : Nat) : PoolState → PoolState → Prop
  | start (p r : Nat) : 0 < p → r < maxWorkers → PoolStep maxWorkers ⟨p, r⟩ ⟨p - 1, r + 1⟩
  | finish (p r : Nat) : 0 < r → PoolStep maxWorkers ⟨p, r⟩ ⟨p, r - 1⟩

/-- Pool states reachable during one pass over K enabled accounts. -/
def PoolReachable (maxWorkers K : Nat) (s : PoolState) : Prop :=
  Relation.ReflTransGen (PoolStep maxWorkers) ⟨K, 0⟩ s

/-- The configuration inputs the spec declares for the orchestrator
(program_config).  stagger_seconds is the spec's global staggerSeconds
configuration input. -/
structure ProgramConfig where
  max_concurrent_accounts : Int
  stagger_seconds : Nat

/-- The local constant of run_all_accounts:
stagger_seconds = 30, seconds between account starts. -/
def run_all_accounts_stagger_seconds : Nat := 30

/-- The start delay run_all_accounts passes to _delayed_account_start
for the i-th enabled account (0-based): delay = i * stagger_seconds,
where stagger_seconds is the local constant above — the configuration is
in scope but not consulted for it. -/
def scheduled_delay (config : ProgramConfig) (i : Nat) : Nat :=
  i * run_all_accounts_stagger_seconds

/-! ### Configuration defaulting (utils.init_config_with_default) -/

/-- utils.check_key_existence_in_dict(dic, key): presence of the key
(KeyError probe, not a truthiness test). -/
def check_key_existence_in_dict {α : Type} (dic : List (String × α)) (key : String) : Bool :=
  dic.any (fun kv => kv.1 = key)

/-- utils.init_config_with_default(config, default_config): for each
key of default_config in order, if config lacks the key, insert the
default value (dict insertion appends at the end). -/
def init_config_with_default {α : Type} (config default_config : List (String × α)) :
    List (String × α) :=
  default_config.foldl
    (fun cfg kv => if check_key_existence_in_dict cfg kv.1 then cfg else cfg ++ [kv]) config

/-! ### The login workflow (handler.account_login)

The interactions with the page are embedded as an oracle giving the
outcome of each numbered login attempt; the outcomes below are exactly
the branches of account_login. -/

/-- Outcome of one login attempt, one constructor per branch of
account_login: the three element-wait timeouts, a captcha-solver
failure, the final-button timeout, the post-login captcha alert, an
unexpected exception, or landing on a final URL. -/
inductive LoginOutcome where
  | promptTimeout
  | popupTimeout
  | passwordTimeout
  | captchaFail
  | loginBtnTimeout
  | captchaAlert
  | unexpectedError
  | landed (url : String)

/-- Helper of digitRuns: scan the characters, carrying the digits of
the current run in reverse. -/
def digitRunsAux : List Char → List Char → List String
  | [], run => if run.isEmpty then [] else [String.mk run.reverse]
  | c :: rest, run =>
    if c.isDigit then digitRunsAux rest (c :: run)
    else if run.isEmpty then digitRunsAux rest []
    else String.mk run.reverse :: digitRunsAux rest []

/-- The maximal runs of consecutive digits of a string, in order:
re.findall of one-or-more-digits. -/
def digitRuns (cs : List Char) : List String := digitRunsAux cs []

/-- The port extraction of account_login: the last digit run of the
current URL, if any (url_digits[-1]). -/
def extract_port (url : String) : Option String :=
  (digitRuns url.data).getLast?

/-- The Python membership test "NewPortal" in url. -/
def containsNewPortal (url : String) : Bool :=
  decide ("NewPortal".data <:+: url.data)

/-- Model of handler.account_login(max_login_attempts, current_attempt):
returns some port when a login attempt lands on a NewPortal URL from
which a numeric port is extracted and stored, and none (a False return,
never an exception) otherwise.  Retryable failures re-attempt the full
sequence while attempts remain; the password-field timeout and an
unexpected exception return False at once, as the source does. -/
def account_login (oracle : Nat → LoginOutcome) (max_login_attempts : Nat := 3)
    (current_attempt : Nat := 1) : Option String :=
  if current_attempt > max_login_attempts then none
  else
    match oracle current_attempt with
    | .promptTimeout =>
      if h : current_attempt < max_login_attempts then
        account_login oracle max_login_attempts (current_attempt + 1)
      else none
    | .popupTimeout =>
      if h : current_attempt < max_login_attempts then
        account_login oracle max_login_attempts (current_attempt + 1)
      else none
    | .passwordTimeout => none
    | .captchaFail =>
      if h : current_attempt < max_login_attempts then
        account_login oracle max_login_attempts (current_attempt + 1)
      else none
    | .loginBtnTimeout =>
      if h : current_attempt < max_login_attempts then
        account_login oracle max_login_attempts (current_attempt + 1)
      else none
    | .captchaAlert =>
      if h : current_attempt < max_login_attempts then
        account_login oracle max_login_attempts (current_attempt + 1)
      else none
    | .unexpectedError => none
    | .landed url =>
      if containsNewPortal url then
        match extract_port url with
        | some p => some p
        | none =>
          if h : current_attempt < max_login_attempts then
            account_login oracle max_login_attempts (current_attempt + 1)
          else none
      else
        if h : current_attempt < max_login_attempts then
          account_login oracle max_login_attempts (current_attempt + 1)
        else none
  termination_by (max_login_attempts + 1) - current_attempt
  decreasing_by all_goals omega

/-- An attempt outcome that yields a stored routing token: a landed URL
containing NewPortal with at least one digit run. -/
def outcomeYieldsPort (o : LoginOutcome) : Prop :=
  ∃ u, o = .landed u ∧ containsNewPortal u = true ∧ (extract_port u).isSome

/-! ## Lemmas about the sort used by the diff engine

Python's list.sort is a stable sort; insertion sort is the stable sort
used in this embedding.  The facts proved here: sorting commutes with
filtering (the formal content of stability used below), sorting a
sorted list is the identity, and the standard permutation and
sortedness facts. -/

/-- Faithfulness of the slot key: on datetimes whose month, day, hour
and minute lie below 100 — as the parser guarantees — the code order is
exactly Python's datetime order, lexicographic on the five fields. -/
theorem PyDateTime.code_le_iff (s t : PyDateTime)
    (hs1 : s.month < 100) (hs2 : s.day < 100) (hs3 : s.hour < 100) (hs4 : s.minute < 100)
    (ht1 : t.month < 100) (ht2 : t.day < 100) (ht3 : t.hour < 100) (ht4 : t.minute < 100) :
    (s.code ≤ t.code) ↔
      (s.year < t.year ∨ (s.year = t.year ∧ (s.month < t.month ∨ (s.month = t.month ∧
        (s.day < t.day ∨ (s.day = t.day ∧ (s.hour < t.hour ∨ (s.hour = t.hour ∧
          s.minute ≤ t.minute)))))))) := by
  unfold PyDateTime.code
  omega

instance : IsTotal Slot slotLe := ⟨fun a b => Nat.le_total _ _⟩

instance : IsTrans Slot slotLe := ⟨fun a b c => Nat.le_trans⟩

theorem pySort_sorted (l : List Slot) : List.Sorted slotLe (pySort l) :=
  List.sorted_insertionSort slotLe l

theorem pySort_perm (l : List Slot) : (pySort l).Perm l :=
  List.perm_insertionSort slotLe l

theorem pySort_eq_self {l : List Slot} (h : List.Sorted slotLe l) : pySort l = l :=
  h.insertionSort_eq

theorem orderedInsert_of_forall_le (a : Slot) (m : List Slot)
    (h : ∀ x ∈ m, slotLe a x) : List.orderedInsert slotLe a m = a :: m := by
  cases m with
  | nil => rfl
  | cons b l => exact List.orderedInsert_of_le slotLe _ (h b (List.mem_cons_self _ _))

theorem orderedInsert_filter (p : Slot → Bool) (a : Slot) (l : List Slot)
    (hl : List.Sorted slotLe l) :
    (List.orderedInsert slotLe a l).filter p =
      if p a then List.orderedInsert slotLe a (l.filter p) else l.filter p := by
  induction l with
  | nil =>
    by_cases hpa : p a <;> simp [List.orderedInsert, List.filter, hpa]
  | cons b l ih =>
    have hbl : ∀ x ∈ l, slotLe b x := (List.sorted_cons.mp hl).1
    have hl' : List.Sorted slotLe l := (List.sorted_cons.mp hl).2
    by_cases hab : slotLe a b
    · rw [List.orderedInsert_of_le slotLe _ hab]
      by_cases hpa : p a
      · rw [if_pos hpa]
        have hall : ∀ x ∈ (b :: l).filter p, slotLe a x := by
          intro x hx
          rcases List.mem_cons.mp (List.mem_of_mem_filter hx) with h1 | h2
          · exact h1 ▸ hab
          · exact Nat.le_trans hab (hbl x h2)
        rw [orderedInsert_of_forall_le a _ hall]
        simp [List.filter_cons, hpa]
      · rw [if_neg hpa]
        simp [List.filter_cons, hpa]
    · have hins : List.orderedInsert slotLe a (b :: l) = b :: List.orderedInsert slotLe a l := by
        simp [List.orderedInsert, hab]
      rw [hins]
      by_cases hpb : p b
      · by_cases hpa : p a
        · simp only [List.filter_cons, hpb, ite_true, ih hl', if_pos hpa]
          simp [List.orderedInsert, hab]
        · simp only [List.filter_cons, hpb, ite_true, ih hl', if_neg hpa]
      · by_cases hpa : p a
        · simp only [List.filter_cons, hpb, Bool.false_eq_true, ite_false, ih hl',
            if_pos hpa]
        · simp only [List.filter_cons, hpb, Bool.false_eq_true, ite_false, ih hl',
            if_neg hpa]

/-! ## Lemmas about the dict-rebuilding fold of get_earliest_time_slots -/

theorem upsert_mem (acc : SlotCollection) (e : Slot)
    (h : acc.any (fun kv => kv.1 = e.1) = true) :
    upsert acc e = acc.map (fun kv => if kv.1 = e.1 then (kv.1, kv.2 ++ [e.2]) else kv) := by
  simp [upsert, h]

theorem upsert_new (acc : SlotCollection) (e : Slot)
    (h : acc.any (fun kv => kv.1 = e.1) = false) :
    upsert acc e = acc ++ [(e.1, [e.2])] := by
  simp [upsert, h]

/-- Closed form of the dict-building fold: every date already in the
accumulator collects, in order, the time slots of its entries of the
input; the entries of new dates build the tail of the dict on their
own. -/
theorem foldl_upsert_eq : ∀ (N : Nat) (x : List Slot), x.length ≤ N →
    ∀ acc : SlotCollection,
    x.foldl upsert acc =
      acc.map (fun kv => (kv.1, kv.2 ++ (x.filter (fun q => q.1 = kv.1)).map Prod.snd)) ++
      rebuild (x.filter (fun q => ¬ (acc.any (fun kv => kv.1 = q.1) = true))) := by
  intro N
  induction N with
  | zero =>
    intro x hx acc
    have hx0 : x = [] := List.eq_nil_of_length_eq_zero (Nat.le_zero.mp hx)
    subst hx0
    simp [rebuild]
  | succ N ih =>
    intro x hx acc
    cases x with
    | nil => simp [rebuild]
    | cons e x' =>
      have hlen : x'.length ≤ N := by
        simpa using Nat.le_of_succ_le_succ (by simpa using hx)
      have hfold : (e :: x').foldl upsert acc = x'.foldl upsert (upsert acc e) := rfl
      cases h : acc.any (fun kv => kv.1 = e.1) with
      | true =>
        rw [hfold, upsert_mem acc e h,
          ih x' hlen (acc.map (fun kv => if kv.1 = e.1 then (kv.1, kv.2 ++ [e.2]) else kv))]
        have hany : ∀ q : Slot,
            ((acc.map (fun kv => if kv.1 = e.1 then (kv.1, kv.2 ++ [e.2]) else kv)).any
              (fun kv => kv.1 = q.1)) = acc.any (fun kv => kv.1 = q.1) := by
          intro q
          rw [List.any_map]
          have hfun : ((fun kv : String × List String => decide (kv.1 = q.1)) ∘
              (fun kv => if kv.1 = e.1 then (kv.1, kv.2 ++ [e.2]) else kv)) =
              (fun kv : String × List String => decide (kv.1 = q.1)) := by
            funext kv
            by_cases hk : kv.1 = e.1 <;> simp [Function.comp, hk]
          rw [hfun]
        have hmapmap :
            (acc.map (fun kv => if kv.1 = e.1 then (kv.1, kv.2 ++ [e.2]) else kv)).map
              (fun kv => (kv.1, kv.2 ++ (x'.filter (fun q => q.1 = kv.1)).map Prod.snd)) =
            acc.map (fun kv =>
              (kv.1, kv.2 ++ ((e :: x').filter (fun q => q.1 = kv.1)).map Prod.snd)) := by
          rw [List.map_map]
          apply List.map_congr_left
          intro kv _
          by_cases hk : kv.1 = e.1
          · simp [Function.comp, hk.symm, List.filter_cons, List.append_assoc]
          · have hek : ¬ (e.1 = kv.1) := fun hh => hk hh.symm
            simp [Function.comp, hk, List.filter_cons, hek]
        have hfiltcong :
            x'.filter (fun q =>
              ¬ (((acc.map (fun kv => if kv.1 = e.1 then (kv.1, kv.2 ++ [e.2]) else kv)).any
                (fun kv => kv.1 = q.1)) = true)) =
            x'.filter (fun q => ¬ (acc.any (fun kv => kv.1 = q.1) = true)) := by
          apply List.filter_congr
          intro q _
          simp [hany q]
        have hfilte :
            (e :: x').filter (fun q => ¬ (acc.any (fun kv => kv.1 = q.1) = true)) =
            x'.filter (fun q => ¬ (acc.any (fun kv => kv.1 = q.1) = true)) := by
          simp [List.filter_cons, h]
        rw [hmapmap, hfiltcong, hfilte]
      | false =>
        rw [hfold, upsert_new acc e h, ih x' hlen (acc ++ [(e.1, [e.2])])]
        have hnot : ∀ kv ∈ acc, ¬ (kv.1 = e.1) := by
          simpa using List.any_eq_false.mp h
        have hmap : (acc ++ [(e.1, [e.2])]).map
              (fun kv => (kv.1, kv.2 ++ (x'.filter (fun q => q.1 = kv.1)).map Prod.snd)) =
            acc.map (fun kv =>
              (kv.1, kv.2 ++ ((e :: x').filter (fun q => q.1 = kv.1)).map Prod.snd)) ++
            [(e.1, [e.2] ++ (x'.filter (fun q => q.1 = e.1)).map Prod.snd)] := by
          rw [List.map_append]
          congr 1
          apply List.map_congr_left
          intro kv hkv
          have hek : ¬ (e.1 = kv.1) := fun hh => hnot kv hkv hh.symm
          simp [List.filter_cons, hek]
        have hconsfilter :
            (e :: x').filter (fun q => ¬ (acc.any (fun kv => kv.1 = q.1) = true)) =
            e :: x'.filter (fun q => ¬ (acc.any (fun kv => kv.1 = q.1) = true)) := by
          simp [List.filter_cons, h]
        have hzlen : (x'.filter (fun q =>
            ¬ (acc.any (fun kv => kv.1 = q.1) = true))).length ≤ N :=
          Nat.le_trans (List.length_filter_le _ _) hlen
        have hzrebuild :
            rebuild (e :: x'.filter (fun q => ¬ (acc.any (fun kv => kv.1 = q.1) = true))) =
            (x'.filter (fun q => ¬ (acc.any (fun kv => kv.1 = q.1) = true))).foldl
              upsert [(e.1, [e.2])] := rfl
        rw [hmap, hconsfilter, hzrebuild,
          ih (x'.filter (fun q => ¬ (acc.any (fun kv => kv.1 = q.1) = true))) hzlen
            [(e.1, [e.2])]]
        have hzf1 : (x'.filter (fun q =>
              ¬ (acc.any (fun kv => kv.1 = q.1) = true))).filter
                (fun q => q.1 = e.1) =
            x'.filter (fun q => q.1 = e.1) := by
          rw [List.filter_filter]
          apply List.filter_congr
          intro q _
          by_cases hq : q.1 = e.1
          · simp [hq, h]
          · simp [hq]
        have hzf2 : (x'.filter (fun q =>
              ¬ (acc.any (fun kv => kv.1 = q.1) = true))).filter
                (fun q => ¬ ([((e.1 : String), ([e.2] : List String))].any
                  (fun kv => kv.1 = q.1) = true)) =
            x'.filter (fun q =>
              ¬ ((acc ++ [(e.1, [e.2])]).any (fun kv => kv.1 = q.1) = true)) := by
          rw [List.filter_filter]
          apply List.filter_congr
          intro q _
          by_cases h1 : acc.any (fun kv => kv.1 = q.1) <;>
            by_cases h2 : e.1 = q.1 <;>
              simp [List.any_append, h1, h2]
        simp only [List.map_cons, List.map_nil, hzf1, hzf2]
        simp [List.append_assoc]

/-- Recursive characterization of the dict-building fold: the first
slot opens the first dict entry, which collects every later time slot
of the same date in order; the remaining dates build the rest. -/
theorem rebuild_cons (e : Slot) (x : List Slot) :
    rebuild (e :: x) =
      (e.1, e.2 :: (x.filter (fun q => q.1 = e.1)).map Prod.snd) ::
      rebuild (x.filter (fun q => ¬ (q.1 = e.1))) := by
  have h0 : rebuild (e :: x) = x.foldl upsert [(e.1, [e.2])] := rfl
  rw [h0, foldl_upsert_eq x.length x (Nat.le_refl _) [(e.1, [e.2])]]
  have hpred : x.filter (fun q =>
      ¬ ([((e.1 : String), ([e.2] : List String))].any (fun kv => kv.1 = q.1) = true)) =
      x.filter (fun q => ¬ (q.1 = e.1)) := by
    apply List.filter_congr
    intro q _
    by_cases hq : q.1 = e.1
    · simp [hq]
    · have hq2 : ¬ (e.1 = q.1) := fun hh => hq hh.symm
      simp [hq, hq2]
  rw [hpred]
  simp

theorem flatten_rebuild_cons (e : Slot) (x : List Slot) :
    flattenSessions (rebuild (e :: x)) =
      e :: (x.filter (fun q => q.1 = e.1) ++
        flattenSessions (rebuild (x.filter (fun q => ¬ (q.1 = e.1))))) := by
  rw [rebuild_cons]
  have h0 : flattenSessions
      ((e.1, e.2 :: (x.filter (fun q => q.1 = e.1)).map Prod.snd) ::
        rebuild (x.filter (fun q => ¬ (q.1 = e.1)))) =
      (e.2 :: (x.filter (fun q => q.1 = e.1)).map Prod.snd).map (fun t => (e.1, t)) ++
        flattenSessions (rebuild (x.filter (fun q => ¬ (q.1 = e.1)))) := rfl
  rw [h0]
  have h1 : ((x.filter (fun q => q.1 = e.1)).map Prod.snd).map (fun t => (e.1, t)) =
      x.filter (fun q => q.1 = e.1) := by
    rw [List.map_map]
    have h2 : ∀ q ∈ x.filter (fun q => q.1 = e.1),
        ((fun t => ((e.1 : String), (t : String))) ∘ Prod.snd) q = id q := by
      intro q hq
      have hq1 : q.1 = e.1 := by
        have := (List.mem_filter.mp hq).2
        simpa using this
      rcases q with ⟨d, t⟩
      simp only [Function.comp, id]
      simp at hq1
      simp [hq1]
    rw [List.map_congr_left h2, List.map_id]
  simp only [List.map_cons, h1]
  rfl

theorem flatten_rebuild_perm : ∀ (N : Nat) (x : List Slot), x.length ≤ N →
    (flattenSessions (rebuild x)).Perm x := by
  intro N
  induction N with
  | zero =>
    intro x hx
    have hx0 : x = [] := List.eq_nil_of_length_eq_zero (Nat.le_zero.mp hx)
    subst hx0
    exact List.Perm.refl _
  | succ N ih =>
    intro x hx
    cases x with
    | nil => exact List.Perm.refl _
    | cons e x' =>
      have hlen : x'.length ≤ N := by simpa using Nat.le_of_succ_le_succ (by simpa using hx)
      rw [flatten_rebuild_cons]
      apply List.Perm.cons
      have hB : (flattenSessions (rebuild (x'.filter (fun q => ¬ (q.1 = e.1))))).Perm
          (x'.filter (fun q => ¬ (q.1 = e.1))) :=
        ih _ (Nat.le_trans (List.length_filter_le _ _) hlen)
      have hsplit : (x'.filter (fun q => q.1 = e.1) ++
          x'.filter (fun q => ¬ (q.1 = e.1))).Perm x' := by
        have hfun : (x'.filter (fun q => ¬ (q.1 = e.1))) =
            x'.filter (fun q => !(decide (q.1 = e.1))) := by
          apply List.filter_congr
          intro q _
          simp [decide_not]
        rw [hfun]
        exact List.filter_append_perm _ x'
      exact (List.Perm.append_left _ hB).trans hsplit

theorem flatten_rebuild_perm_self (x : List Slot) :
    (flattenSessions (rebuild x)).Perm x :=
  flatten_rebuild_perm x.length x (Nat.le_refl _)

theorem flatten_rebuild_filter : ∀ (N : Nat) (x : List Slot), x.length ≤ N → ∀ d : String,
    (flattenSessions (rebuild x)).filter (fun q => q.1 = d) =
      x.filter (fun q => q.1 = d) := by
  intro N
  induction N with
  | zero =>
    intro x hx d
    have hx0 : x = [] := List.eq_nil_of_length_eq_zero (Nat.le_zero.mp hx)
    subst hx0
    rfl
  | succ N ih =>
    intro x hx d
    cases x with
    | nil => rfl
    | cons e x' =>
      have hlen : x'.length ≤ N := by simpa using Nat.le_of_succ_le_succ (by simpa using hx)
      have hlen2 : (x'.filter (fun q => ¬ (q.1 = e.1))).length ≤ N :=
        Nat.le_trans (List.length_filter_le _ _) hlen
      rw [flatten_rebuild_cons]
      by_cases he : e.1 = d
      · rw [← he]
        simp only [List.filter_cons, List.filter_append, decide_True, if_pos rfl]
        have h1 : (x'.filter (fun q => q.1 = e.1)).filter (fun q => q.1 = e.1) =
            x'.filter (fun q => q.1 = e.1) := by
          rw [List.filter_filter]
          apply List.filter_congr
          intro q _
          by_cases hq : q.1 = e.1 <;> simp [hq]
        have h2 : (flattenSessions (rebuild (x'.filter (fun q => ¬ (q.1 = e.1))))).filter
            (fun q => q.1 = e.1) = [] := by
          rw [ih _ hlen2 e.1, List.filter_filter]
          have : ∀ q ∈ x', (decide (q.1 = e.1) && decide (¬ (q.1 = e.1))) = false := by
            intro q _
            by_cases hq : q.1 = e.1 <;> simp [hq]
          rw [List.filter_congr this]
          simp
        rw [h1, h2]
        simp
      · have he2 : ¬ (decide (e.1 = d) = true) := by simp [he]
        simp only [List.filter_cons, List.filter_append, he2, if_neg]
        have h1 : (x'.filter (fun q => q.1 = e.1)).filter (fun q => q.1 = d) = [] := by
          rw [List.filter_filter]
          have : ∀ q ∈ x', (decide (q.1 = d) && decide (q.1 = e.1)) = false := by
            intro q _
            by_cases hq : q.1 = e.1
            · simp [hq, he]
            · simp [hq]
          rw [List.filter_congr this]
          simp
        have h2 : (flattenSessions (rebuild (x'.filter (fun q => ¬ (q.1 = e.1))))).filter
            (fun q => q.1 = d) = x'.filter (fun q => q.1 = d) := by
          rw [ih _ hlen2 d, List.filter_filter]
          apply List.filter_congr
          intro q _
          by_cases hq : q.1 = d
          · have hde : ¬ (d = e.1) := fun hh => he hh.symm
            simp [hq, hde]
          · simp [hq]
        rw [h1, h2]
        simp [he2]

theorem flatten_rebuild_filter_self (x : List Slot) (d : String) :
    (flattenSessions (rebuild x)).filter (fun q => q.1 = d) =
      x.filter (fun q => q.1 = d) :=
  flatten_rebuild_filter x.length x (Nat.le_refl _) d

theorem pySort_filter (p : Slot → Bool) (l : List Slot) :
    (pySort l).filter p = pySort (l.filter p) := by
  induction l with
  | nil => rfl
  | cons a l ih =>
    have h1 : pySort (a :: l) = List.orderedInsert slotLe a (pySort l) := rfl
    rw [h1, orderedInsert_filter p a _ (pySort_sorted l), ih]
    by_cases hpa : p a
    · simp only [if_pos hpa, List.filter_cons, hpa, ite_true]
      rfl
    · simp only [if_neg hpa, List.filter_cons, hpa, Bool.false_eq_true, ite_false]

/-- The engine of the idempotence claim: regrouping a sorted slot list
into a dict, flattening that dict, re-sorting it stably and regrouping
again reproduces the dict.  This holds even when distinct date strings
parse to equal dates, because the stable sort keeps each date block in
first-occurrence order. -/
theorem rebuild_pySort_flatten : ∀ (N : Nat) (l : List Slot), l.length ≤ N →
    List.Sorted slotLe l →
    rebuild (pySort (flattenSessions (rebuild l))) = rebuild l := by
  intro N
  induction N with
  | zero =>
    intro l hlen _
    have hl0 : l = [] := List.eq_nil_of_length_eq_zero (Nat.le_zero.mp hlen)
    subst hl0
    rfl
  | succ N ih =>
    intro l hlen hs
    cases l with
    | nil => rfl
    | cons e l' =>
      have hlen' : l'.length ≤ N := by simpa using Nat.le_of_succ_le_succ (by simpa using hlen)
      have hhead : ∀ b ∈ l', slotLe e b := (List.sorted_cons.mp hs).1
      have hs' : List.Sorted slotLe l' := (List.sorted_cons.mp hs).2
      have hperm : (flattenSessions (rebuild (e :: l'))).Perm (e :: l') :=
        flatten_rebuild_perm_self (e :: l')
      have hm'perm : (pySort (flattenSessions (rebuild (e :: l')))).Perm (e :: l') :=
        (pySort_perm _).trans hperm
      have hm'sorted : List.Sorted slotLe (pySort (flattenSessions (rebuild (e :: l')))) :=
        pySort_sorted _
      -- the sorted output is nonempty; write it h :: t
      obtain ⟨h, t, hm'⟩ : ∃ h t, pySort (flattenSessions (rebuild (e :: l'))) = h :: t := by
        cases hm0 : pySort (flattenSessions (rebuild (e :: l'))) with
        | nil =>
          have := hm'perm.length_eq
          rw [hm0] at this
          simp at this
        | cons h t => exact ⟨h, t, rfl⟩
      -- the head has the minimal key
      have hkeyh : slotKey h = slotKey e := by
        have hhmem : h ∈ e :: l' := hm'perm.subset (hm' ▸ List.mem_cons_self h t)
        have hge : slotLe e h := by
          rcases List.mem_cons.mp hhmem with h1 | h2
          · exact h1 ▸ Nat.le_refl _
          · exact hhead h h2
        have hle : slotLe h e := by
          have hemem : e ∈ h :: t := hm' ▸ hm'perm.mem_iff.mpr (List.mem_cons_self e l')
          rcases List.mem_cons.mp hemem with h1 | h2
          · exact h1 ▸ Nat.le_refl _
          · rw [hm'] at hm'sorted
            exact (List.sorted_cons.mp hm'sorted).1 e h2
        exact Nat.le_antisymm hle hge
      -- the head is e itself: among the minimal-key slots, the stable
      -- sort keeps the input order, and e leads the flattened dict
      have hhead_e : h = e := by
        have hminfilter :
            (pySort (flattenSessions (rebuild (e :: l')))).filter
              (fun q => slotKey q = slotKey e) =
            (flattenSessions (rebuild (e :: l'))).filter
              (fun q => slotKey q = slotKey e) := by
          rw [pySort_filter]
          apply pySort_eq_self
          apply List.pairwise_of_forall_mem_list
          intro a ha b hb
          have ha2 : slotKey a = slotKey e := by simpa using (List.mem_filter.mp ha).2
          have hb2 : slotKey b = slotKey e := by simpa using (List.mem_filter.mp hb).2
          show slotKey a ≤ slotKey b
          rw [ha2, hb2]
        rw [hm', flatten_rebuild_cons] at hminfilter
        rw [List.filter_cons, List.filter_cons] at hminfilter
        simp only [hkeyh, decide_True, ite_true] at hminfilter
        exact (List.cons.injEq _ _ _ _).mp hminfilter |>.1
      rw [hhead_e] at hm'
      -- the same-date tail slots agree with those of l'
      have hfP : t.filter (fun q => q.1 = e.1) = l'.filter (fun q => q.1 = e.1) := by
        have hstep :
            (pySort (flattenSessions (rebuild (e :: l')))).filter (fun q => q.1 = e.1) =
            e :: l'.filter (fun q => q.1 = e.1) := by
          rw [pySort_filter, flatten_rebuild_filter_self (e :: l') e.1]
          have hfc : (e :: l').filter (fun q => q.1 = e.1) =
              e :: l'.filter (fun q => q.1 = e.1) := by
            simp [List.filter_cons]
          rw [hfc]
          apply pySort_eq_self
          have hsub : List.Sublist (e :: l'.filter (fun q => q.1 = e.1)) (e :: l') :=
            List.Sublist.cons₂ e (List.filter_sublist l')
          exact List.Pairwise.sublist hsub hs
        rw [hm'] at hstep
        rw [List.filter_cons] at hstep
        simp only [decide_True, ite_true] at hstep
        exact (List.cons.injEq _ _ _ _).mp hstep |>.2
      -- the other-date tail slots are the re-sorted flattening of the
      -- regrouped other-date slots of l'
      have hfnP : t.filter (fun q => ¬ (q.1 = e.1)) =
          pySort (flattenSessions (rebuild (l'.filter (fun q => ¬ (q.1 = e.1))))) := by
        have hstep :
            (pySort (flattenSessions (rebuild (e :: l')))).filter (fun q => ¬ (q.1 = e.1)) =
            pySort (flattenSessions (rebuild (l'.filter (fun q => ¬ (q.1 = e.1))))) := by
          rw [pySort_filter]
          congr 1
          rw [flatten_rebuild_cons]
          rw [List.filter_cons]
          have he1 : decide (¬ (e.1 = e.1)) = false := by simp
          rw [if_neg (by simp)]
          rw [List.filter_append]
          have hA : (l'.filter (fun q => q.1 = e.1)).filter (fun q => ¬ (q.1 = e.1)) = [] := by
            rw [List.filter_filter]
            have : ∀ q ∈ l', (decide (¬ (q.1 = e.1)) && decide (q.1 = e.1)) = false := by
              intro q _
              by_cases hq : q.1 = e.1 <;> simp [hq]
            rw [List.filter_congr this]
            simp
          have hB : (flattenSessions (rebuild (l'.filter (fun q => ¬ (q.1 = e.1))))).filter
              (fun q => ¬ (q.1 = e.1)) =
              flattenSessions (rebuild (l'.filter (fun q => ¬ (q.1 = e.1)))) := by
            rw [List.filter_eq_self]
            intro q hq
            have hmem : q ∈ l'.filter (fun q => ¬ (q.1 = e.1)) :=
              (flatten_rebuild_perm_self _).subset hq
            exact (List.mem_filter.mp hmem).2
          rw [hA, hB]
          rfl
        rw [hm'] at hstep
        rw [List.filter_cons] at hstep
        rw [if_neg (by simp)] at hstep
        exact hstep
      -- the inductive hypothesis regroups the other dates
      have hIH : rebuild (pySort (flattenSessions (rebuild
          (l'.filter (fun q => ¬ (q.1 = e.1)))))) =
          rebuild (l'.filter (fun q => ¬ (q.1 = e.1))) := by
        apply ih
        · exact Nat.le_trans (List.length_filter_le _ _) hlen'
        · exact List.Pairwise.sublist (List.filter_sublist l') hs'
      rw [hm', rebuild_cons, hfP, hfnP, hIH, rebuild_cons]

theorem rebuild_pySort_flatten_self (l : List Slot) (hs : List.Sorted slotLe l) :
    rebuild (pySort (flattenSessions (rebuild l))) = rebuild l :=
  rebuild_pySort_flatten l.length l (Nat.le_refl _) hs

/-- Success-path normal form of get_earliest_time_slots. -/
theorem get_earliest_time_slots_eq_some {c : SlotCollection} {n : Nat} {ft : String}
    {r : SlotCollection} (hr : get_earliest_time_slots c n ft = some r) :
    (flattenSessions c).all slotParses = true ∧
    r = rebuild ((pySort (flattenSessions c)).take
      (min (n * 1) (pySort (flattenSessions c)).length)) := by
  by_cases hb : (flattenSessions c).all slotParses = true
  · refine ⟨hb, ?_⟩
    simp only [get_earliest_time_slots, hb, if_true] at hr
    exact (Option.some.injEq _ _).mp hr |>.symm
  · simp only [get_earliest_time_slots] at hr
    rw [if_neg hb] at hr
    cases hr

/-- C1: for every collection c and bound n, get_earliest_time_slots
(the spec's earliestN at step 1, hence the hypothesis that the call
returned normally) yields at most n slots; every returned slot is
chronologically at most every slot of c left out of the result; the
empty collection yields the empty collection; and re-applying the
operation to its own output with the same or a larger bound returns
that output unchanged. -/
theorem get_earliest_time_slots_spec (c : SlotCollection) (n n2 : Nat)
    (ft ft2 : String) (r : SlotCollection)
    (hr : get_earliest_time_slots c n ft = some r) (hn : n ≤ n2) :
    (flattenSessions r).length ≤ n ∧
    (∀ s ∈ flattenSessions r, ∀ t2 ∈ flattenSessions c,
      t2 ∉ flattenSessions r → slotKey s ≤ slotKey t2) ∧
    get_earliest_time_slots [] n ft = some [] ∧
    get_earliest_time_slots r n2 ft2 = some r := by
  obtain ⟨hall, hreq⟩ := get_earliest_time_slots_eq_some hr
  have hSlen : (pySort (flattenSessions c)).length = (flattenSessions c).length :=
    (pySort_perm _).length_eq
  have hflatperm : (flattenSessions r).Perm
      ((pySort (flattenSessions c)).take
        (min (n * 1) (pySort (flattenSessions c)).length)) := by
    rw [hreq]
    exact flatten_rebuild_perm_self _
  have htakelen : ((pySort (flattenSessions c)).take
      (min (n * 1) (pySort (flattenSessions c)).length)).length ≤ n := by
    rw [List.length_take]
    have := Nat.min_le_left (n * 1) (pySort (flattenSessions c)).length
    have h2 := Nat.min_le_left
      (min (n * 1) (pySort (flattenSessions c)).length) (pySort (flattenSessions c)).length
    omega
  have hlenr : (flattenSessions r).length ≤ n := by
    rw [hflatperm.length_eq]
    exact htakelen
  refine ⟨hlenr, ?_, ?_, ?_⟩
  · -- ordering between kept and excluded slots
    intro s hs t2 ht2 ht2n
    have hsmem : s ∈ (pySort (flattenSessions c)).take
        (min (n * 1) (pySort (flattenSessions c)).length) :=
      hflatperm.subset hs
    have ht2S : t2 ∈ pySort (flattenSessions c) := (pySort_perm _).mem_iff.mpr ht2
    have ht2take : t2 ∉ (pySort (flattenSessions c)).take
        (min (n * 1) (pySort (flattenSessions c)).length) := by
      intro hmem
      exact ht2n (hflatperm.mem_iff.mpr hmem)
    have hsplit := List.take_append_drop
      (min (n * 1) (pySort (flattenSessions c)).length) (pySort (flattenSessions c))
    have hsorted := pySort_sorted (flattenSessions c)
    rw [← hsplit] at hsorted
    have hcross := (List.pairwise_append.mp hsorted).2.2
    have ht2drop : t2 ∈ (pySort (flattenSessions c)).drop
        (min (n * 1) (pySort (flattenSessions c)).length) := by
      rw [← hsplit] at ht2S
      rcases List.mem_append.mp ht2S with h1 | h2
      · exact absurd h1 ht2take
      · exact h2
    exact hcross s hsmem t2 ht2drop
  · -- the empty collection
    simp [get_earliest_time_slots, flattenSessions, pySort, rebuild]
  · -- idempotence at the same or a larger bound
    have hsorted_take : List.Sorted slotLe
        ((pySort (flattenSessions c)).take
          (min (n * 1) (pySort (flattenSessions c)).length)) :=
      List.Pairwise.sublist (List.take_sublist _ _) (pySort_sorted _)
    have hall2 : (flattenSessions r).all slotParses = true := by
      rw [List.all_eq_true]
      intro e he
      have he2 : e ∈ flattenSessions c := by
        have h1 : e ∈ (pySort (flattenSessions c)).take
            (min (n * 1) (pySort (flattenSessions c)).length) := hflatperm.subset he
        have h2 : e ∈ pySort (flattenSessions c) := (List.take_sublist _ _).subset h1
        exact (pySort_perm _).subset h2
      exact List.all_eq_true.mp hall e he2
    have hlen2 : (pySort (flattenSessions r)).length ≤ n2 * 1 := by
      rw [(pySort_perm _).length_eq, Nat.mul_one]
      exact Nat.le_trans hlenr hn
    have hmin2 : min (n2 * 1) (pySort (flattenSessions r)).length =
        (pySort (flattenSessions r)).length :=
      Nat.min_eq_right hlen2
    simp only [get_earliest_time_slots, hall2, if_true, hmin2, List.take_length]
    rw [hreq]
    rw [rebuild_pySort_flatten_self _ hsorted_take]

/-! ## The collection-equality check (check_if_same_sessions) -/

theorem pySetEq_iff (l1 l2 : List String) :
    pySetEq l1 l2 = true ↔ (∀ x, x ∈ l1 ↔ x ∈ l2) := by
  simp only [pySetEq, Bool.and_eq_true, List.all_eq_true, List.contains, List.elem_iff]
  constructor
  · rintro ⟨h1, h2⟩ x
    exact ⟨fun hx => h1 x hx, fun hx => h2 x hx⟩
  · intro h
    exact ⟨fun x hx => (h x).mp hx, fun x hx => (h x).mpr hx⟩

theorem dictGetD_of_mem {a : SlotCollection} (ha : (a.map Prod.fst).Nodup)
    {kv : String × List String} (hkv : kv ∈ a) : dictGetD a kv.1 = kv.2 := by
  induction a with
  | nil => cases hkv
  | cons x rest ih =>
    rw [List.map_cons, List.nodup_cons] at ha
    rcases List.mem_cons.mp hkv with h1 | h2
    · subst h1
      simp [dictGetD, List.find?_cons_of_pos]
    · have hx1 : ¬ (x.1 = kv.1) := by
        intro hx
        exact ha.1 (hx ▸ List.mem_map_of_mem Prod.fst h2)
      have hfind : (x :: rest).find? (fun kv2 => kv2.1 = kv.1) =
          rest.find? (fun kv2 => kv2.1 = kv.1) :=
        List.find?_cons_of_neg _ (by simp [hx1])
      unfold dictGetD
      rw [hfind]
      exact ih ha.2 h2

theorem dictGetD_of_not_mem {a : SlotCollection} {d : String}
    (h : d ∉ a.map Prod.fst) : dictGetD a d = [] := by
  have hfind : a.find? (fun kv => kv.1 = d) = none := by
    rw [List.find?_eq_none]
    intro x hx
    simp only [decide_eq_true_eq]
    intro h1
    exact h (h1 ▸ List.mem_map_of_mem Prod.fst hx)
  simp [dictGetD, hfind]

/-- check_if_same_sessions returns False exactly on spec-equal
collections (for real dicts, whose keys are unique). -/
theorem check_if_same_sessions_iff (a b : SlotCollection)
    (ha : (a.map Prod.fst).Nodup) :
    (check_if_same_sessions a b = false ↔ collectionsEqual a b) := by
  have hform : check_if_same_sessions a b = false ↔
      (pySetEq (a.map Prod.fst) (b.map Prod.fst) = true ∧
       ∀ kv ∈ a, pySetEq kv.2 (dictGetD b kv.1) = true) := by
    unfold check_if_same_sessions
    by_cases hX : pySetEq (a.map Prod.fst) (b.map Prod.fst) = true
    · rw [if_neg (not_not_intro hX)]
      by_cases hY : a.any (fun kv => ¬ (pySetEq kv.2 (dictGetD b kv.1))) = true
      · rw [if_pos hY]
        constructor
        · intro habs
          cases habs
        · rintro ⟨h1, h2⟩
          obtain ⟨kv, hkv, hno⟩ := List.any_eq_true.mp hY
          simp only [decide_eq_true_eq] at hno
          exact absurd (h2 kv hkv) hno
      · rw [if_neg hY]
        constructor
        · intro _
          refine ⟨hX, ?_⟩
          intro kv hkv
          have h3 := List.any_eq_false.mp (eq_false_of_ne_true hY) kv hkv
          simpa using h3
        · intro _
          rfl
    · rw [if_pos hX]
      constructor
      · intro habs
        cases habs
      · rintro ⟨h1, _⟩
        exact absurd h1 hX
  rw [hform]
  constructor
  · rintro ⟨h1, h2⟩
    constructor
    · exact fun d => (pySetEq_iff _ _).mp h1 d
    · intro d t2
      by_cases hd : d ∈ a.map Prod.fst
      · obtain ⟨kv, hkv, hkvd⟩ := List.mem_map.mp hd
        have hga : dictGetD a d = kv.2 := by
          rw [← hkvd]
          exact dictGetD_of_mem ha hkv
        have hmem := (pySetEq_iff _ _).mp (h2 kv hkv) t2
        rw [hga, ← hkvd]
        exact hmem
      · have hdb : d ∉ b.map Prod.fst := fun hdb2 =>
          hd (((pySetEq_iff _ _).mp h1 d).mpr hdb2)
        rw [dictGetD_of_not_mem hd, dictGetD_of_not_mem hdb]
  · rintro ⟨h1, h2⟩
    refine ⟨(pySetEq_iff _ _).mpr h1, ?_⟩
    intro kv hkv
    apply (pySetEq_iff _ _).mpr
    intro t2
    have hga : dictGetD a kv.1 = kv.2 := dictGetD_of_mem ha hkv
    rw [← hga]
    exact h2 kv.1 t2

/-- C2: check_if_same_sessions (inverted boolean sense: False means
equal) decides spec-level collection equality — identical date-key sets
and order-independent per-date time sets — and the decision is
reflexive and symmetric. -/
theorem check_if_same_sessions_spec (a b : SlotCollection)
    (ha : (a.map Prod.fst).Nodup) (hb : (b.map Prod.fst).Nodup) :
    (check_if_same_sessions a b = false ↔ collectionsEqual a b) ∧
    check_if_same_sessions a a = false ∧
    check_if_same_sessions a b = check_if_same_sessions b a := by
  have hiff_ab := check_if_same_sessions_iff a b ha
  have hiff_ba := check_if_same_sessions_iff b a hb
  have hsym : collectionsEqual a b ↔ collectionsEqual b a := by
    constructor <;> rintro ⟨h1, h2⟩ <;>
      exact ⟨fun d => (h1 d).symm, fun d t2 => (h2 d t2).symm⟩
  refine ⟨hiff_ab, ?_, ?_⟩
  · exact (check_if_same_sessions_iff a a ha).mpr ⟨fun d => Iff.rfl, fun d t2 => Iff.rfl⟩
  · cases hab : check_if_same_sessions a b <;> cases hba : check_if_same_sessions b a
    · rfl
    · exfalso
      have h1 : collectionsEqual b a := hsym.mp (hiff_ab.mp hab)
      have := hiff_ba.mpr h1
      rw [hba] at this
      cases this
    · exfalso
      have h1 : collectionsEqual a b := hsym.mpr (hiff_ba.mp hba)
      have := hiff_ab.mpr h1
      rw [hab] at this
      cases this
    · rfl

/-- C2 witness: the characterization, reflexivity and symmetry at the
concrete dicts of the spec scenarios. -/
theorem check_if_same_sessions_spec_witness :
    check_if_same_sessions [("a", ["1", "2"])] [("a", ["1", "2"])] = false ∧
    check_if_same_sessions [("a", ["1", "2"])] [("a", ["2", "1"])] =
      check_if_same_sessions [("a", ["2", "1"])] [("a", ["1", "2"])] :=
  ⟨(check_if_same_sessions_spec [("a", ["1", "2"])] [("a", ["2", "1"])]
      (by decide) (by decide)).2.1,
   (check_if_same_sessions_spec [("a", ["1", "2"])] [("a", ["2", "1"])]
      (by decide) (by decide)).2.2⟩

/-! ## Reset and the per-category frame (cdc_abstract.py) -/

/-- C3: after reset_attributes_with_fieldtype — applied to every
category by reset_attributes_for_all_fieldtypes — every template field
of every category equals its zero value, except
cached_earlier_sessions, which keeps exactly its pre-reset value. -/
theorem reset_preserves_exactly_cached (s : CDCState) (ft : FieldType) :
    fieldsOf ft (reset_attributes_with_fieldtype ft s) =
      { days_in_view := [], web_elements_in_view := [], times_in_view := [],
        available_sessions := [], reserved_sessions := [], booked_sessions := [],
        lesson_name := "", earlier_sessions := [],
        cached_earlier_sessions := (fieldsOf ft s).cached_earlier_sessions } ∧
    fieldsOf ft (reset_attributes_for_all_fieldtypes s) =
      { days_in_view := [], web_elements_in_view := [], times_in_view := [],
        available_sessions := [], reserved_sessions := [], booked_sessions := [],
        lesson_name := "", earlier_sessions := [],
        cached_earlier_sessions := (fieldsOf ft s).cached_earlier_sessions } := by
  cases ft <;> exact ⟨rfl, rfl⟩

/-- C8: mutations of one category — set_attribute_with_fieldtype for
any attribute and reset_attributes_with_fieldtype — leave every
attribute and flag of any other category unchanged. -/
theorem per_category_frame (a : Attr) (t u : FieldType) (v : AttrTy a)
    (s : CDCState) (h : t ≠ u) :
    fieldsOf u (set_attribute_with_fieldtype a t v s) = fieldsOf u s ∧
    canBookNextOf u (set_attribute_with_fieldtype a t v s) = canBookNextOf u s ∧
    hasAutoReservedOf u (set_attribute_with_fieldtype a t v s) = hasAutoReservedOf u s ∧
    fieldsOf u (reset_attributes_with_fieldtype t s) = fieldsOf u s ∧
    canBookNextOf u (reset_attributes_with_fieldtype t s) = canBookNextOf u s ∧
    hasAutoReservedOf u (reset_attributes_with_fieldtype t s) = hasAutoReservedOf u s := by
  cases t <;> cases u <;>
    first
      | exact absurd rfl h
      | exact ⟨rfl, rfl, rfl, rfl, rfl, rfl⟩

/-- C8 witness: setting the practical lesson name and resetting the
practical category leave the pt category of a concrete state intact. -/
theorem per_category_frame_witness :
    fieldsOf .pt (set_attribute_with_fieldtype .lesson_name .practical "Class 3A"
      { practical :=
          { days_in_view := ["1"], web_elements_in_view := [], times_in_view := [],
            available_sessions := [], reserved_sessions := [], booked_sessions := [],
            lesson_name := "", earlier_sessions := [],
            cached_earlier_sessions := [("12/May/2025", ["09:00"])] },
        pt :=
          { days_in_view := [], web_elements_in_view := [], times_in_view := [],
            available_sessions := [("13/May/2025", ["10:00"])], reserved_sessions := [],
            booked_sessions := [], lesson_name := "PT", earlier_sessions := [],
            cached_earlier_sessions := [] },
        can_book_next_practical := true,
        has_auto_reserved_practical := false,
        can_book_next_pt := true }) =
    fieldsOf .pt
      { practical :=
          { days_in_view := ["1"], web_elements_in_view := [], times_in_view := [],
            available_sessions := [], reserved_sessions := [], booked_sessions := [],
            lesson_name := "", earlier_sessions := [],
            cached_earlier_sessions := [("12/May/2025", ["09:00"])] },
        pt :=
          { days_in_view := [], web_elements_in_view := [], times_in_view := [],
            available_sessions := [("13/May/2025", ["10:00"])], reserved_sessions := [],
            booked_sessions := [], lesson_name := "PT", earlier_sessions := [],
            cached_earlier_sessions := [] },
        can_book_next_practical := true,
        has_auto_reserved_practical := false,
        can_book_next_pt := true } :=
  (per_category_frame .lesson_name .practical .pt "Class 3A" _ (by decide)).1

/-- C6 counterexample: on a collection holding a slot whose date fails
to parse, get_earliest_time_slots raises (none), rather than excluding
the slot and returning normally (which would have been some []). -/
theorem get_earliest_unparsable_raises :
    get_earliest_time_slots [("bad", ["09:00"])] 1 "practical" = none := by
  rfl

/-- C6 amended: whenever any slot of the input fails to parse, the sort
of get_earliest_time_slots propagates the ValueError of
convert_to_datetime — the whole call raises (none) instead of excluding
the offending slot. -/
theorem get_earliest_unparsable_none (c : SlotCollection) (n : Nat) (ft : String)
    (h : ∃ e ∈ flattenSessions c, convert_to_datetime e.1 e.2 = none) :
    get_earliest_time_slots c n ft = none := by
  obtain ⟨e, he, hpe⟩ := h
  have hall : ¬ ((flattenSessions c).all slotParses = true) := by
    rw [List.all_eq_true]
    intro hforall
    have := hforall e he
    rw [slotParses, hpe] at this
    cases this
  simp only [get_earliest_time_slots]
  rw [if_neg hall]

/-- C6 witness for the amended theorem: the unparsable date makes the
whole call raise. -/
theorem get_earliest_unparsable_none_witness :
    get_earliest_time_slots [("bad", ["09:00"])] 2 "practical" = none :=
  get_earliest_unparsable_none [("bad", ["09:00"])] 2 "practical"
    ⟨("bad", "09:00"), by decide, by decide⟩

/-- C1 witness: the four clauses at a concrete two-date collection,
n = 2 and a re-application at n = 3. -/
theorem get_earliest_time_slots_spec_witness :
    (flattenSessions ([("11/May/2025", ["15:00 - 16:00"]),
        ("12/May/2025", ["09:00 - 10:00"])] : SlotCollection)).length ≤ 2 ∧
    (∀ s ∈ flattenSessions ([("11/May/2025", ["15:00 - 16:00"]),
        ("12/May/2025", ["09:00 - 10:00"])] : SlotCollection),
      ∀ t2 ∈ flattenSessions ([("12/May/2025", ["11:00 - 12:00", "09:00 - 10:00"]),
        ("11/May/2025", ["15:00 - 16:00"])] : SlotCollection),
      t2 ∉ flattenSessions ([("11/May/2025", ["15:00 - 16:00"]),
        ("12/May/2025", ["09:00 - 10:00"])] : SlotCollection) →
        slotKey s ≤ slotKey t2) ∧
    get_earliest_time_slots [] 2 "practical" = some [] ∧
    get_earliest_time_slots
      [("11/May/2025", ["15:00 - 16:00"]), ("12/May/2025", ["09:00 - 10:00"])] 3 "pt" =
      some [("11/May/2025", ["15:00 - 16:00"]), ("12/May/2025", ["09:00 - 10:00"])] :=
  get_earliest_time_slots_spec
    [("12/May/2025", ["11:00 - 12:00", "09:00 - 10:00"]), ("11/May/2025", ["15:00 - 16:00"])]
    2 3 "practical" "pt"
    [("11/May/2025", ["15:00 - 16:00"]), ("12/May/2025", ["09:00 - 10:00"])]
    (by decide) (by decide)

/-! ## The login workflow (C7) -/

theorem account_login_aux (oracle : Nat → LoginOutcome) (m : Nat) :
    ∀ (fuel c : Nat), m + 1 - c ≤ fuel →
      ((∀ k, ¬ outcomeYieldsPort (oracle k)) → account_login oracle m c = none) ∧
      (∀ p, account_login oracle m c = some p →
        ∃ k u, c ≤ k ∧ k ≤ m ∧ oracle k = .landed u ∧ containsNewPortal u = true ∧
          extract_port u = some p) := by
  intro fuel
  induction fuel with
  | zero =>
    intro c hc
    have hcm : c > m := by omega
    constructor
    · intro _
      rw [account_login, if_pos hcm]
    · intro p hp
      rw [account_login, if_pos hcm] at hp
      cases hp
  | succ fuel ih =>
    intro c hc
    by_cases hcm : c > m
    · constructor
      · intro _
        rw [account_login, if_pos hcm]
      · intro p hp
        rw [account_login, if_pos hcm] at hp
        cases hp
    · constructor
      · intro hnone
        rw [account_login, if_neg hcm]
        cases ho : oracle c with
        | promptTimeout =>
          by_cases hlt : c < m
          · rw [dif_pos hlt]
            exact (ih (c + 1) (by omega)).1 hnone
          · rw [dif_neg hlt]
        | popupTimeout =>
          by_cases hlt : c < m
          · rw [dif_pos hlt]
            exact (ih (c + 1) (by omega)).1 hnone
          · rw [dif_neg hlt]
        | passwordTimeout => rfl
        | captchaFail =>
          by_cases hlt : c < m
          · rw [dif_pos hlt]
            exact (ih (c + 1) (by omega)).1 hnone
          · rw [dif_neg hlt]
        | loginBtnTimeout =>
          by_cases hlt : c < m
          · rw [dif_pos hlt]
            exact (ih (c + 1) (by omega)).1 hnone
          · rw [dif_neg hlt]
        | captchaAlert =>
          by_cases hlt : c < m
          · rw [dif_pos hlt]
            exact (ih (c + 1) (by omega)).1 hnone
          · rw [dif_neg hlt]
        | unexpectedError => rfl
        | landed url =>
          dsimp only
          by_cases hcp : containsNewPortal url = true
          · rw [if_pos hcp]
            cases hep : extract_port url with
            | some p2 =>
              exact absurd ⟨url, ho, hcp, by simp [hep]⟩ (hnone c)
            | none =>
              by_cases hlt : c < m
              · rw [dif_pos hlt]
                exact (ih (c + 1) (by omega)).1 hnone
              · rw [dif_neg hlt]
          · rw [if_neg hcp]
            by_cases hlt : c < m
            · rw [dif_pos hlt]
              exact (ih (c + 1) (by omega)).1 hnone
            · rw [dif_neg hlt]
      · intro p hp
        rw [account_login, if_neg hcm] at hp
        revert hp
        cases ho : oracle c with
        | promptTimeout =>
          intro hp
          by_cases hlt : c < m
          · rw [dif_pos hlt] at hp
            obtain ⟨k, u, hk1, hk2, h3, h4, h5⟩ := (ih (c + 1) (by omega)).2 p hp
            exact ⟨k, u, by omega, hk2, h3, h4, h5⟩
          · rw [dif_neg hlt] at hp
            cases hp
        | popupTimeout =>
          intro hp
          by_cases hlt : c < m
          · rw [dif_pos hlt] at hp
            obtain ⟨k, u, hk1, hk2, h3, h4, h5⟩ := (ih (c + 1) (by omega)).2 p hp
            exact ⟨k, u, by omega, hk2, h3, h4, h5⟩
          · rw [dif_neg hlt] at hp
            cases hp
        | passwordTimeout => intro hp; cases hp
        | captchaFail =>
          intro hp
          by_cases hlt : c < m
          · rw [dif_pos hlt] at hp
            obtain ⟨k, u, hk1, hk2, h3, h4, h5⟩ := (ih (c + 1) (by omega)).2 p hp
            exact ⟨k, u, by omega, hk2, h3, h4, h5⟩
          · rw [dif_neg hlt] at hp
            cases hp
        | loginBtnTimeout =>
          intro hp
          by_cases hlt : c < m
          · rw [dif_pos hlt] at hp
            obtain ⟨k, u, hk1, hk2, h3, h4, h5⟩ := (ih (c + 1) (by omega)).2 p hp
            exact ⟨k, u, by omega, hk2, h3, h4, h5⟩
          · rw [dif_neg hlt] at hp
            cases hp
        | captchaAlert =>
          intro hp
          by_cases hlt : c < m
          · rw [dif_pos hlt] at hp
            obtain ⟨k, u, hk1, hk2, h3, h4, h5⟩ := (ih (c + 1) (by omega)).2 p hp
            exact ⟨k, u, by omega, hk2, h3, h4, h5⟩
          · rw [dif_neg hlt] at hp
            cases hp
        | unexpectedError => intro hp; cases hp
        | landed url =>
          intro hp
          dsimp only at hp
          by_cases hcp : containsNewPortal url = true
          · rw [if_pos hcp] at hp
            revert hp
            cases hep : extract_port url with
            | some p2 =>
              intro hp
              have hpp : p2 = p := by
                cases hp
                rfl
              exact ⟨c, url, Nat.le_refl _, by omega, ho, hcp, hpp ▸ hep⟩
            | none =>
              intro hp
              by_cases hlt : c < m
              · rw [dif_pos hlt] at hp
                obtain ⟨k, u, hk1, hk2, h3, h4, h5⟩ := (ih (c + 1) (by omega)).2 p hp
                exact ⟨k, u, by omega, hk2, h3, h4, h5⟩
              · rw [dif_neg hlt] at hp
                cases hp
          · rw [if_neg hcp] at hp
            by_cases hlt : c < m
            · rw [dif_pos hlt] at hp
              obtain ⟨k, u, hk1, hk2, h3, h4, h5⟩ := (ih (c + 1) (by omega)).2 p hp
              exact ⟨k, u, by omega, hk2, h3, h4, h5⟩
            · rw [dif_neg hlt] at hp
              cases hp

/-- C7: account_login fails closed — when no attempt lands on a
NewPortal URL with an extractable numeric port, the call returns False
(none) after its bounded retries rather than raising — and it returns
True only when some attempt within the bounds landed on a NewPortal URL
whose last digit run was extracted and stored as the routing port. -/
theorem account_login_spec (oracle : Nat → LoginOutcome) (m c : Nat) :
    ((∀ k, ¬ outcomeYieldsPort (oracle k)) → account_login oracle m c = none) ∧
    (∀ p, account_login oracle m c = some p →
      ∃ k u, c ≤ k ∧ k ≤ m ∧ oracle k = .landed u ∧ containsNewPortal u = true ∧
        extract_port u = some p) :=
  account_login_aux oracle m (m + 1 - c) c (Nat.le_refl _)

/-- C7 witness: with the default three attempts, an always-failing
oracle yields False, and an oracle that lands on a NewPortal URL at the
third attempt yields the port extracted from that URL. -/
theorem account_login_spec_witness :
    account_login (fun _ => .captchaFail) 3 1 = none ∧
    (∃ k u, 1 ≤ k ∧ k ≤ 3 ∧
      (fun n => if n < 3 then LoginOutcome.captchaFail
        else .landed "https://x/NewPortal77") k = .landed u ∧
      containsNewPortal u = true ∧ extract_port u = some "77") := by
  constructor
  · apply (account_login_spec (fun _ => .captchaFail) 3 1).1
    intro k
    rintro ⟨u, hu, _⟩
    cases hu
  · apply (account_login_spec
      (fun n => if n < 3 then LoginOutcome.captchaFail
        else .landed "https://x/NewPortal77") 3 1).2
    rw [account_login]
    norm_num
    rw [account_login]
    norm_num
    rw [account_login]
    norm_num [containsNewPortal, extract_port]
    constructor
    · decide
    · decide

/-! ## The call-depth guard (C4) -/

theorem check_call_depth_iff (d : Nat) : check_call_depth d = true ↔ d ≤ 4 := by
  unfold check_call_depth
  split
  · rename_i hgt
    simp
    omega
  · rename_i hle
    simp
    omega

theorem openPLRun_calls : ∀ (f d : Nat), (openPLRun f d).2 = f + 1 := by
  intro f
  induction f with
  | zero =>
    intro d
    simp [openPLRun]
  | succ f ih =>
    intro d
    simp [openPLRun, ih]
    omega

theorem openPLRun_relogins : ∀ (f d : Nat), d ≤ 5 → (openPLRun f d).1 = (f + d) / 5 := by
  intro f
  induction f with
  | zero =>
    intro d hd
    by_cases h : check_call_depth d = true
    · have hd4 : d ≤ 4 := (check_call_depth_iff d).mp h
      simp [openPLRun, h]
      omega
    · have hd5 : d = 5 := by
        have hng : ¬ (d ≤ 4) := fun hle => h ((check_call_depth_iff d).mpr hle)
        omega
      simp [openPLRun, h]
      omega
  | succ f ih =>
    intro d hd
    by_cases h : check_call_depth d = true
    · have hd4 : d ≤ 4 := (check_call_depth_iff d).mp h
      have hstep := ih (d + 1) (by omega)
      simp [openPLRun, h, hstep]
      omega
    · have hd5 : d = 5 := by
        have hng : ¬ (d ≤ 4) := fun hle => h ((check_call_depth_iff d).mpr hle)
        omega
      have hstep := ih 1 (by omega)
      simp [openPLRun, h, hstep]
      omega

/-- C4 counterexample: ten consecutive Refreshing failures (more than
the ceiling of 4) force two logout-then-re-login escalations, not
exactly one. -/
theorem call_depth_guard_counterexample :
    4 < 10 ∧ (openPLRun 10 0).1 = 2 ∧ ¬ ((openPLRun 10 0).1 = 1) := by
  decide

/-- C4 amended: N consecutive Refreshing failures force one re-login
per five further failures — N / 5 re-logins in total, exactly one only
while N is at most 9 — the depth counter does reset to 0 at every
escalation (the run continues at depth 1), and the recursion is not
bounded by the guard: the run makes N + 1 nested calls, growing without
bound in N. -/
theorem call_depth_guard_amended (N : Nat) (h : 4 < N) :
    (openPLRun N 0).1 = N / 5 ∧
    ((openPLRun N 0).1 = 1 ↔ N ≤ 9) ∧
    (openPLRun N 0).2 = N + 1 ∧
    (∀ f, openPLRun (f + 1) 5 = (1 + (openPLRun f 1).1, 1 + (openPLRun f 1).2)) := by
  have h1 : (openPLRun N 0).1 = N / 5 := by
    have := openPLRun_relogins N 0 (by omega)
    simpa using this
  refine ⟨h1, ?_, openPLRun_calls N 0, ?_⟩
  · rw [h1]
    omega
  · intro f
    rfl

/-- C4 witness for the amended theorem, at N = 7. -/
theorem call_depth_guard_amended_witness :
    (openPLRun 7 0).1 = 7 / 5 :=
  (call_depth_guard_amended 7 (by decide)).1

/-! ## The orchestrator pool bound (C5) -/

theorem pool_running_le (W K : Nat) : ∀ s : PoolState, PoolReachable W K s →
    s.running ≤ W := by
  intro s h
  induction h with
  | refl => exact Nat.zero_le _
  | tail _ hstep ih =>
    cases hstep with
    | start p r hp hr => exact Nat.succ_le_of_lt hr
    | finish p r hr => exact Nat.le_trans (Nat.sub_le _ _) ih

/-- C5: run_all_accounts sizes its pool as max_concurrent_accounts when
that lies in (0, enabledCount], as the enabled-account count otherwise
(zero or negative meaning unbounded up to the account count); and under
the pool semantics no reachable state has more than M workers running
when 0 < M ≤ K. -/
theorem run_all_accounts_concurrency (M : Int) (K : Nat) (h1 : 0 < M)
    (h2 : M ≤ (K : Int)) :
    effective_max_workers M K = M.toNat ∧
    (∀ M2 : Int, (M2 ≤ 0 ∨ (K : Int) < M2) → effective_max_workers M2 K = K) ∧
    (∀ s : PoolState, PoolReachable (effective_max_workers M K) K s →
      (s.running : Int) ≤ M) := by
  have heff : effective_max_workers M K = M.toNat := by
    unfold effective_max_workers
    rw [if_neg]
    intro hor
    rcases hor with h | h
    · omega
    · exact absurd h2 (by omega)
  refine ⟨heff, ?_, ?_⟩
  · intro M2 hM2
    unfold effective_max_workers
    rw [if_pos]
    rcases hM2 with h | h
    · exact Or.inl h
    · exact Or.inr h
  · intro s hs
    have hle := pool_running_le (effective_max_workers M K) K s hs
    rw [heff] at hle
    omega

/-- C5 witness: the sizing clause at M = 2, K = 3. -/
theorem run_all_accounts_concurrency_witness :
    effective_max_workers 2 3 = (2 : Int).toNat :=
  (run_all_accounts_concurrency 2 3 (by norm_num) (by norm_num)).1

/-! ## The stagger delay (C9) -/

/-- C9 counterexample: with a configured stagger value of 7 seconds,
the delay of the account at index 1 is 30 seconds, not 1 * 7 — the
code multiplies by a local constant 30, not by the configured value. -/
theorem stagger_not_from_config :
    scheduled_delay { max_concurrent_accounts := 0, stagger_seconds := 7 } 1 ≠
      1 * ProgramConfig.stagger_seconds
        { max_concurrent_accounts := 0, stagger_seconds := 7 } := by
  decide

/-- C9 amended: the i-th enabled account is scheduled with a start
delay of i * 30 seconds, the 30 being the hardcoded local
stagger_seconds of run_all_accounts, independent of the configuration. -/
theorem scheduled_delay_hardcoded (config : ProgramConfig) (i : Nat) :
    scheduled_delay config i = i * 30 ∧ run_all_accounts_stagger_seconds = 30 :=
  ⟨rfl, rfl⟩

/-! ## Configuration defaulting (C10) -/

theorem init_config_step {α : Type} (cfg : List (String × α)) (kv : String × α)
    (rest : List (String × α)) :
    init_config_with_default cfg (kv :: rest) =
      init_config_with_default
        (if check_key_existence_in_dict cfg kv.1 then cfg else cfg ++ [kv]) rest := rfl

theorem init_config_mono {α : Type} : ∀ (d cfg : List (String × α)) (k : String),
    check_key_existence_in_dict cfg k = true →
    check_key_existence_in_dict (init_config_with_default cfg d) k = true := by
  intro d
  induction d with
  | nil => exact fun cfg k h => h
  | cons kv rest ih =>
    intro cfg k h
    rw [init_config_step]
    apply ih
    by_cases hc : check_key_existence_in_dict cfg kv.1 = true
    · rw [if_pos hc]
      exact h
    · rw [if_neg hc]
      simp only [check_key_existence_in_dict, List.any_append, Bool.or_eq_true]
      exact Or.inl h

theorem init_config_default_present {α : Type} : ∀ (d cfg : List (String × α)) (k : String),
    check_key_existence_in_dict d k = true →
    check_key_existence_in_dict (init_config_with_default cfg d) k = true := by
  intro d
  induction d with
  | nil =>
    intro cfg k h
    cases h
  | cons kv rest ih =>
    intro cfg k h
    simp only [check_key_existence_in_dict, List.any_cons, Bool.or_eq_true,
      decide_eq_true_eq] at h
    rw [init_config_step]
    rcases h with h1 | h2
    · apply init_config_mono
      by_cases hc : check_key_existence_in_dict cfg kv.1 = true
      · rw [if_pos hc]
        exact h1 ▸ hc
      · rw [if_neg hc]
        simp [check_key_existence_in_dict, List.any_append, h1]
    · exact ih _ k h2

theorem init_config_find_stable {α : Type} : ∀ (d cfg : List (String × α)) (k : String),
    check_key_existence_in_dict cfg k = true →
    (init_config_with_default cfg d).find? (fun kv => kv.1 = k) =
      cfg.find? (fun kv => kv.1 = k) := by
  intro d
  induction d with
  | nil => exact fun cfg k _ => rfl
  | cons kv rest ih =>
    intro cfg k h
    rw [init_config_step]
    by_cases hc : check_key_existence_in_dict cfg kv.1 = true
    · rw [if_pos hc]
      exact ih cfg k h
    · rw [if_neg hc]
      have hk : check_key_existence_in_dict (cfg ++ [kv]) k = true := by
        simp only [check_key_existence_in_dict, List.any_append, Bool.or_eq_true]
        exact Or.inl h
      rw [ih (cfg ++ [kv]) k hk]
      obtain ⟨x, hx, hpx⟩ := List.any_eq_true.mp h
      have hsome : (cfg.find? (fun kv2 => kv2.1 = k)).isSome := by
        rw [List.find?_isSome]
        exact ⟨x, hx, hpx⟩
      obtain ⟨y, hy⟩ := Option.isSome_iff_exists.mp hsome
      rw [List.find?_append, hy]
      rfl

theorem init_config_keys_bound {α : Type} : ∀ (d cfg : List (String × α)) (k : String),
    check_key_existence_in_dict (init_config_with_default cfg d) k = true →
    check_key_existence_in_dict cfg k = true ∨
      check_key_existence_in_dict d k = true := by
  intro d
  induction d with
  | nil => exact fun cfg k h => Or.inl h
  | cons kv rest ih =>
    intro cfg k h
    rw [init_config_step] at h
    rcases ih _ k h with h1 | h2
    · by_cases hc : check_key_existence_in_dict cfg kv.1 = true
      · rw [if_pos hc] at h1
        exact Or.inl h1
      · rw [if_neg hc] at h1
        simp only [check_key_existence_in_dict, List.any_append, List.any_cons,
          List.any_nil, Bool.or_eq_true, Bool.or_false, decide_eq_true_eq] at h1
        rcases h1 with h3 | h3
        · exact Or.inl (by simpa [check_key_existence_in_dict] using h3)
        · right
          simp [check_key_existence_in_dict, List.any_cons, h3]
    · right
      simp only [check_key_existence_in_dict, List.any_cons, Bool.or_eq_true]
      right
      simpa [check_key_existence_in_dict] using h2

/-- C10: init_config_with_default makes every default key present,
never overwrites an existing entry of config (the lookup of any key
already in config is unchanged — presence, not truthiness, guards the
defaulting, so falsy values survive), and introduces no key outside
config and default_config. -/
theorem init_config_with_default_spec {α : Type}
    (config default_config : List (String × α)) :
    (∀ k, check_key_existence_in_dict default_config k = true →
      check_key_existence_in_dict (init_config_with_default config default_config) k =
        true) ∧
    (∀ k, check_key_existence_in_dict config k = true →
      (init_config_with_default config default_config).find? (fun kv => kv.1 = k) =
        config.find? (fun kv => kv.1 = k)) ∧
    (∀ k, check_key_existence_in_dict (init_config_with_default config default_config) k =
        true →
      check_key_existence_in_dict config k = true ∨
        check_key_existence_in_dict default_config k = true) :=
  ⟨fun k => init_config_default_present default_config config k,
   fun k => init_config_find_stable default_config config k,
   fun k => init_config_keys_bound default_config config k⟩

/-- C10 witness: on concrete dicts, the falsy-valued existing entry
("b", 0) survives defaulting against default ("b", 7), and the missing
default ("c", 9) is added. -/
theorem init_config_with_default_spec_witness :
    (init_config_with_default [("a", 1), ("b", 0)] [("b", 7), ("c", 9)]).find?
      (fun kv => kv.1 = "b") = ([("a", 1), ("b", 0)] : List (String × Nat)).find?
      (fun kv => kv.1 = "b") ∧
    check_key_existence_in_dict
      (init_config_with_default [("a", 1), ("b", 0)] [("b", 7), ("c", 9)]) "c" = true :=
  ⟨(init_config_with_default_spec [("a", 1), ("b", 0)] [("b", 7), ("c", 9)]).2.1 "b"
      (by decide),
   (init_config_with_default_spec [("a", 1), ("b", 0)] [("b", 7), ("c", 9)]).1 "c"
      (by decide)⟩

end CDC
